import Mathlib

/-!
# WFC-ColdChain: verification of the telemetry reconciliation engine

Shallow embedding of the pure core of `WebfleetService`
(`src/unnamed/part_002`): the sensor-identity normalizer
(`normalizeSensorData`, `assignStableIds`), the chunked range fetcher
(`getChunkedHistoricalData`), the stream merger and the event compactor
(`getHistoricalData`), together with the request-dispatch logic that picks
between the symbolic range-pattern mode and the explicit window mode.

Modelling conventions:
* Epoch-millisecond timestamps are `Int`.  A raw record's timestamp field is
  the result of `new Date(d.timestamp).getTime()` modelled as `Option Int`:
  `none` when the field is absent / falsy or the parse yields `NaN`,
  `some t` when it parses to `t`.  (In `assignStableIds` the source also
  drops `t = 0` because `0` is falsy in JavaScript; the model keeps that
  check explicit.)
* A hex-coded `sensorcode` field is modelled post-parse as
  `Option (Option Int)`: `none` = field absent or falsy (empty string),
  `some none` = field present but `parseInt(_, 16)` yields `NaN`,
  `some (some n)` = field present and parses to `n`.
* Temperature values are carried as `Int` (the code never computes with
  them, it only moves them; `typeof d.temperature === 'number'` is modelled
  as `value.isSome`).  Door states are carried as the raw status `String`.
* Latitude/longitude are carried in raw micro-degrees (`Option Int`); the
  source divides by 10^6 for display, which is injective and irrelevant to
  the claims.
* JavaScript object maps keyed by numeric sensor ids are modelled as
  canonical association lists sorted by key (`mapInsert` keeps them sorted
  and duplicate-free).  For the compactor's `JSON.stringify` comparison of
  door maps this is faithful: `{...last, ...snap}` equals `last` under
  `JSON.stringify` exactly when the two have the same key set and values
  (the spread preserves the key order of `last` when no new key is added),
  which for canonical sorted lists is structural equality.
-/

/-- A raw reading of one quantity (temperature or door status) as consumed
by the normalizer, with string fields already lexed as described above.
`α` is `Int` for temperature records and `String` for door records. -/
structure Reading (α : Type) where
  ts : Option Int
  sensor : Option Int
  sensorcode : Option (Option Int)
  value : Option α
  sensorname : Option String
deriving DecidableEq, Repr

/-- JavaScript truthiness of the numeric `d.sensor` field: present and
non-zero. -/
def sensorTruthy {α : Type} (d : Reading α) : Bool :=
  match d.sensor with
  | some n => n != 0
  | none => false

/-- Truthiness of the parsed timestamp, as tested by
`const ts = d.timestamp ? new Date(d.timestamp).getTime() : null` followed
by `ts && !isNaN(ts)`: the parse must succeed and the epoch value must be
non-zero. -/
def tsValid {α : Type} (d : Reading α) : Bool :=
  match d.ts with
  | some t => t != 0
  | none => false

/-- `d[valueKey] !== undefined` combined with `tsValid`: the filter of the
first pass of `assignStableIds`. -/
def validReading {α : Type} (d : Reading α) : Bool :=
  tsValid d && d.value.isSome

/-- The timestamp key of a reading that passed `tsValid`. -/
def tsKey {α : Type} (d : Reading α) : Int := d.ts.getD 0

/-- `{ ...reading, sensor: n }`. -/
def setSensor {α : Type} (d : Reading α) (n : Int) : Reading α :=
  { d with sensor := some n }

/-- `normalizeSensorData` (`src/unnamed/part_002` lines 348-359): copy a
successfully hex-parsed `sensorcode` into an absent `sensor` field; leave
the record untouched otherwise (parse failure included). -/
def normalizeSensorData {α : Type} (data : List (Reading α)) : List (Reading α) :=
  data.map fun d =>
    match d.sensorcode, d.sensor with
    | some (some n), none => { d with sensor := some n }
    | _, _ => d

/-- Append `d` to the group of timestamp `t`, creating the group at the end
when `t` is new: the insertion-ordered `Map` `readingsByTs` of the source. -/
def insertByTs {α : Type} (groups : List (Int × List (Reading α))) (t : Int)
    (d : Reading α) : List (Int × List (Reading α)) :=
  match groups with
  | [] => [(t, [d])]
  | (t', ds) :: rest =>
    if t' = t then (t', ds ++ [d]) :: rest else (t', ds) :: insertByTs rest t d

/-- First pass of `assignStableIds`: group the valid readings by exact
timestamp, in first-occurrence order. -/
def groupByTs {α : Type} (data : List (Reading α)) : List (Int × List (Reading α)) :=
  data.foldl (fun gs d => if validReading d then insertByTs gs (tsKey d) d else gs) []

/-- The explicit (truthy) sensor ids collected by the first pass, in input
order (the source stores them in a `Set`; only emptiness, membership and the
maximum are consumed). -/
def explicitIds {α : Type} (data : List (Reading α)) : List Int :=
  (data.filter validReading).filterMap fun d =>
    if sensorTruthy d then d.sensor else none

/-- `explicitIds.size > 0 ? Math.max(...explicitIds) : 0`. -/
def maxExplicitId {α : Type} (data : List (Reading α)) : Int :=
  match explicitIds data with
  | [] => 0
  | x :: xs => xs.foldl max x

/-- The anonymous readings of one timestamp group, in original order. -/
def anonOf {α : Type} (g : List (Reading α)) : List (Reading α) :=
  g.filter fun d => !sensorTruthy d

/-- The number of anonymous readings in one timestamp group. -/
def anonCount {α : Type} (g : List (Reading α)) : Nat := (anonOf g).length

/-- The maximum count of anonymous readings in any single timestamp group. -/
def maxAnonCount {α : Type} (data : List (Reading α)) : Nat :=
  (groupByTs data).foldl (fun m p => max m (anonCount p.2)) 0

/-- The fabrication pool `[maxExplicitId+1, ..., maxExplicitId+maxAnonCount]`. -/
def anonIdPool {α : Type} (data : List (Reading α)) : List Int :=
  (List.range (maxAnonCount data)).map fun i : Nat => maxExplicitId data + 1 + (i : Int)

/-- `assignStableIds` (`src/unnamed/part_002` lines 232-283): group the
valid readings by timestamp, count the worst-case anonymous population,
return the input unchanged when it is zero, and otherwise rebuild the list
group by group with the anonymous readings (in original order) given ids
from the pool.  The JavaScript indexes `anonIdPool[index]` with
`index < anonCount ≤ pool.length`, which `List.zipWith` reproduces. -/
def assignStableIds {α : Type} [DecidableEq α] (data : List (Reading α)) :
    List (Reading α) :=
  if data = [] then []
  else if maxAnonCount data = 0 then data
  else
    (groupByTs data).foldl
      (fun acc p =>
        acc ++ (List.zipWith setSensor (anonOf p.2) (anonIdPool data)
          ++ p.2.filter sensorTruthy))
      []

/-! ## Stream merger and event compactor -/

/-- A temperature entry of a snapshot or output point:
`{ value: d.temperature, name: d.sensorname || `Sensor ${d.sensor}` }`. -/
structure TempReading where
  value : Int
  name : String
deriving DecidableEq, Repr

/-- A location sample.  Coordinates are kept in raw micro-degrees; either
may be missing (the source requires only one of the two to be a number). -/
structure Location where
  latMdeg : Option Int
  lngMdeg : Option Int
  address : String
deriving DecidableEq, Repr

/-- A canonical (key-sorted, duplicate-free when built from `[]`) model of a
JavaScript object keyed by numeric sensor ids. -/
abbrev IdMap (β : Type) := List (Int × β)

/-- `m[k] = v` on a canonical `IdMap`: overwrite on an existing key, keep
the list sorted otherwise. -/
def mapInsert {β : Type} (m : IdMap β) (k : Int) (v : β) : IdMap β :=
  match m with
  | [] => [(k, v)]
  | (k', v') :: rest =>
    if k < k' then (k, v) :: (k', v') :: rest
    else if k = k' then (k, v) :: rest
    else (k', v') :: mapInsert rest k v

/-- `{ ...a, ...b }`: the shallow merge of two canonical `IdMap`s, entries
of `b` overriding. -/
def mapMerge {β : Type} (a b : IdMap β) : IdMap β :=
  b.foldl (fun m kv => mapInsert m kv.1 kv.2) a

/-- One snapshot of `dataByTs`: the three optional components written by the
merger.  An absent map and an empty map are indistinguishable to the
compactor (`point.temperatures && Object.keys(point.temperatures).length > 0`),
so both are `[]`. -/
structure Snapshot where
  temperatures : IdMap TempReading
  doorStatus : IdMap Nat
  location : Option Location
deriving DecidableEq, Repr

def emptySnapshot : Snapshot := ⟨[], [], none⟩

/-- `getOrCreatePoint` followed by a mutation: update the snapshot stored at
key `t` (insertion-ordered, like the source's `Map`), creating an empty one
first when `t` is new.  Keys are `Option Int`: `none` is the single `NaN`
key that every unparseable timestamp collapses to (JavaScript `Map` keys
use SameValueZero, under which `NaN` equals `NaN`). -/
def upsertSnap (m : List (Option Int × Snapshot)) (t : Option Int)
    (f : Snapshot → Snapshot) : List (Option Int × Snapshot) :=
  match m with
  | [] => [(t, f emptySnapshot)]
  | (t', s) :: rest =>
    if t' = t then (t', f s) :: rest else (t', s) :: upsertSnap rest t f

/-- Write one (id-assigned) temperature record into `dataByTs`
(`src/unnamed/part_002` lines 380-392): guard
`d.sensor && typeof d.temperature === 'number'`, then
`point.temperatures[d.sensor] = { value, name }` (last write wins).
The source computes the key as `new Date(d.timestamp).getTime()` with no
validity check, so a record with an unparseable timestamp is inserted
under the `NaN` key, modelled as `none`. -/
def addTemp (m : List (Option Int × Snapshot)) (d : Reading Int) :
    List (Option Int × Snapshot) :=
  match d.sensor, d.value with
  | some sid, some v =>
    if sid ≠ 0 then
      upsertSnap m d.ts fun s =>
        { s with temperatures := mapInsert s.temperatures sid
                  (TempReading.mk v (d.sensorname.getD ("Sensor " ++ toString sid))) }
    else m
  | _, _ => m

/-- Write one door record into `dataByTs` (lines 394-403): guard
`d.sensor && d.status` (a truthy status string), then
`point.doorStatus[d.sensor] = d.status === 'OPEN' ? 1 : 0`.  As for
temperatures, the key carries no validity check: an unparseable timestamp
lands under the `NaN` key (`none`). -/
def addDoor (m : List (Option Int × Snapshot)) (d : Reading String) :
    List (Option Int × Snapshot) :=
  match d.sensor, d.value with
  | some sid, some st =>
    if sid ≠ 0 ∧ st ≠ "" then
      upsertSnap m d.ts fun s =>
        { s with doorStatus := mapInsert s.doorStatus sid (if st = "OPEN" then 1 else 0) }
    else m
  | _, _ => m

/-- A raw track record (`showTracks` row): `pos_time` is the timestamp
parse result as for `Reading`, coordinates are raw micro-degrees. -/
structure TrackReading where
  pos_time : Option Int
  latitude : Option Int
  longitude : Option Int
  postext : Option String
deriving DecidableEq, Repr

/-- Write one track record into `dataByTs` (lines 405-419): guard
`ts && !isNaN(ts) && (typeof d.latitude === 'number' || typeof d.longitude === 'number')`,
then set the location only when the snapshot has none (first writer wins).
Tracks do check the timestamp, so their keys are always numeric. -/
def addTrack (m : List (Option Int × Snapshot)) (d : TrackReading) :
    List (Option Int × Snapshot) :=
  match d.pos_time with
  | some t =>
    if t ≠ 0 ∧ (d.latitude.isSome ∨ d.longitude.isSome) then
      upsertSnap m (some t) fun s =>
        match s.location with
        | some _ => s
        | none =>
          { s with location := some (Location.mk d.latitude d.longitude
                    (d.postext.getD "Address not available")) }
    else m
  | none => m

/-- JavaScript `a <= b` on epoch values where `none` stands for `NaN`,
totalised by placing the `NaN` key first: the comparator `(a, b) => a - b`
yields `NaN` on a `NaN` operand, which `SortCompare` turns into `+0`, and
the resulting order is implementation-defined (ECMA-262); the model fixes
one conforming order.  Every theorem below either assumes parseable
timestamps (no `NaN` key) or, as in the C1 counterexample, holds under
every placement of the `NaN` key. -/
def nanKeyLe (a b : Option Int) : Bool :=
  match a, b with
  | none, _ => true
  | some _, none => false
  | some x, some y => decide (x ≤ y)

/-- JavaScript `<` on epoch values where `none` stands for `NaN`: every
comparison against `NaN` is false. -/
def optLt (a b : Option Int) : Bool :=
  match a, b with
  | some x, some y => decide (x < y)
  | _, _ => false

/-- `Array.from(dataByTs.keys()).sort((a, b) => a - b)`, applied to the
whole association list (the snapshots travel with their keys; the keys are
pairwise distinct, so on `NaN`-free key sets any correct ascending sort
models the source's). -/
def sortSnaps (m : List (Option Int × Snapshot)) : List (Option Int × Snapshot) :=
  m.insertionSort fun a b => nanKeyLe a.1 b.1 = true

/-- One output point (`HistoricalDataPoint`).  The timestamp is the
(possibly `NaN`, i.e. `none`) key of the snapshot it was emitted for. -/
structure HPoint where
  timestamp : Option Int
  temperatures : Option (IdMap TempReading)
  doorStatus : Option (IdMap Nat)
  location : Option Location
deriving DecidableEq, Repr

/-- Proof instrumentation attached to each emitted point: `real` is true
for the push at line 457 of the source (an event emitted for a snapshot)
and false for the synthetic gap-boundary push at line 444; `hadTemp` is
true exactly for real emissions whose snapshot carried temperature data.
The source's output is the projection that drops this flag. -/
structure EmitFlag where
  real : Bool
  hadTemp : Bool
deriving DecidableEq, Repr

/-- The accumulator threaded by the compactor loop (lines 425-428). -/
structure CState where
  results : List (EmitFlag × HPoint)
  lastDoor : Option (IdMap Nat)
  carriedTemps : Option (IdMap TempReading)
  lastLocation : Option Location
deriving DecidableEq, Repr

def initCState : CState := ⟨[], none, none, none⟩

/-- `{ ...(lastDoor || {}), ...(point.doorStatus || {}) }`. -/
def combinedDoor (s : CState) (snap : Snapshot) : IdMap Nat :=
  mapMerge (s.lastDoor.getD []) snap.doorStatus

/-- The temperatures of an emitted point (line 453). -/
def emitTemps (s : CState) (snap : Snapshot) : Option (IdMap TempReading) :=
  if snap.temperatures ≠ [] then
    some (mapMerge (s.carriedTemps.getD []) snap.temperatures)
  else s.carriedTemps

/-- The door map of an emitted point (line 454). -/
def emitDoor (s : CState) (snap : Snapshot) : Option (IdMap Nat) :=
  if snap.doorStatus ≠ [] ∨ s.lastDoor.isSome then some (combinedDoor s snap) else none

/-- The location of an emitted point (line 455): `point.location || lastLocation`. -/
def emitLoc (s : CState) (snap : Snapshot) : Option Location :=
  snap.location.or s.lastLocation

/-- The timestamp of the last emitted point, if any. -/
def lastTs (s : CState) : Option (Option Int) :=
  s.results.getLast?.map fun fp => fp.2.timestamp

/-- One iteration of the compactor loop (lines 430-468).  `doorChanged` is
`JSON.stringify(combinedDoorStatus) !== JSON.stringify(lastDoor)`, which on
canonical door maps (and with `null` never stringifying like an object) is
`some (combinedDoor s snap) ≠ s.lastDoor`.  The gap test
`timestamp > prevTimestamp + 1` is false whenever either side is `NaN`, so
a synthetic point arises only between two numeric timestamps. -/
def compactStep (s : CState) (x : Option Int × Snapshot) : CState :=
  let ts := x.1
  let snap := x.2
  let hasTemp := snap.temperatures ≠ []
  let doorChanged := some (combinedDoor s snap) ≠ s.lastDoor
  if s.results = [] ∨ hasTemp ∨ doorChanged ∨ snap.location.isSome then
    let withSynth :=
      match lastTs s, ts with
      | some (some p), some t =>
        if t > p + 1 then
          s.results ++ [(EmitFlag.mk false false,
            HPoint.mk (some (t - 1)) s.carriedTemps s.lastDoor s.lastLocation)]
        else s.results
      | _, _ => s.results
    { results := withSynth ++ [(EmitFlag.mk true hasTemp,
        HPoint.mk ts (emitTemps s snap) (emitDoor s snap) (emitLoc s snap))],
      lastDoor := emitDoor s snap,
      carriedTemps := emitTemps s snap,
      lastLocation := emitLoc s snap }
  else s

/-- The compactor: fold `compactStep` over the sorted snapshots. -/
def compactA (snaps : List (Option Int × Snapshot)) : List (EmitFlag × HPoint) :=
  (snaps.foldl compactStep initCState).results

/-- The instrumented pure core of `getHistoricalData`
(`src/unnamed/part_002` lines 315-472) after the three streams have been
fetched: normalize and id-assign the temperature and door streams, merge the
three streams into timestamp-keyed snapshots, sort, and compact. -/
def getHistoricalDataA (tempRaw : List (Reading Int)) (doorRaw : List (Reading String))
    (trackRaw : List TrackReading) : List (EmitFlag × HPoint) :=
  let tempData := assignStableIds (normalizeSensorData tempRaw)
  let doorData := assignStableIds (normalizeSensorData doorRaw)
  let m1 := tempData.foldl addTemp []
  let m2 := doorData.foldl addDoor m1
  let m3 := trackRaw.foldl addTrack m2
  compactA (sortSnaps m3)

/-- The output array of `getHistoricalData`: the instrumented run with the
proof flags dropped. -/
def getHistoricalData (tempRaw : List (Reading Int)) (doorRaw : List (Reading String))
    (trackRaw : List TrackReading) : List HPoint :=
  (getHistoricalDataA tempRaw doorRaw trackRaw).map Prod.snd

/-! ## Chunked range fetcher and request dispatch -/

/-- The `[currentStartTime, currentEndTime)` windows issued by the loop of
`getChunkedHistoricalData` (`src/unnamed/part_002` lines 80-103):
while `cur < endT`, emit `(cur, min (cur + maxD) endT)` and continue from
the chunk's end.  The source always calls this with a positive constant
duration (7 or 2 days); the `0 < maxD` guard makes the recursion
well-founded (with `maxD ≤ 0` the source would not terminate). -/
def chunkRanges (cur endT maxD : Int) : List (Int × Int) :=
  if h : cur < endT ∧ 0 < maxD then
    (cur, min (cur + maxD) endT) :: chunkRanges (min (cur + maxD) endT) endT maxD
  else []
termination_by (endT - cur).toNat
decreasing_by
  have h1 : cur < min (cur + maxD) endT := lt_min (by omega) h.1
  omega

/-- `getChunkedHistoricalData`: fetch every chunk in order and concatenate,
a failing chunk (`fetch r = none`, the `catch` branch) contributing
nothing. -/
def getChunkedHistoricalData {α : Type} (fetch : Int × Int → Option (List α))
    (startT endT maxD : Int) : List α :=
  (chunkRanges startT endT maxD).foldl
    (fun acc r => acc ++ ((fetch r).getD [])) []

/-- `HistoricalDataOptions` with the two optional range modes. -/
structure HistoricalDataOptions where
  objectuid : String
  rangePattern : Option String
  startTime : Option Int
  endTime : Option Int
deriving DecidableEq, Repr

/-- One upstream request as the dispatch layer shapes it: the action name
and the temporal parameters (`range_pattern`, and for chunked requests the
`rangefrom_string`/`rangeto_string` window). -/
structure ApiRequest where
  action : String
  range_pattern : Option String
  rangefrom : Option Int
  rangeto : Option Int
deriving DecidableEq, Repr

/-- JavaScript truthiness of an optional string: present and non-empty. -/
def strTruthy (s : Option String) : Bool :=
  match s with
  | some v => v != ""
  | none => false

/-- JavaScript truthiness of an optional number: present and non-zero. -/
def intTruthy (t : Option Int) : Bool :=
  match t with
  | some v => v != 0
  | none => false

def tempAction : String := "getHistoricalTemperatureData"
def doorAction : String := "getHistoricalRefrigeratedDoorStatusData"
def trackAction : String := "showTracks"

def SEVEN_DAYS_MS : Int := 7 * 24 * 60 * 60 * 1000
def TWO_DAYS_MS : Int := 2 * 24 * 60 * 60 * 1000

/-- The chunked requests of one stream: `range_pattern: 'ud'` with the
chunk window attached (lines 86-91). -/
def chunkedRequests (action : String) (startT endT maxD : Int) : List ApiRequest :=
  (chunkRanges startT endT maxD).map fun r =>
    ApiRequest.mk action (some "ud") (some r.1) (some r.2)

/-- The temporal dispatch of `getHistoricalData` (lines 328-339): a truthy
`rangePattern` is forwarded verbatim in one request per stream; otherwise a
truthy `startTime`/`endTime` pair selects the chunked path (7-day chunks
for temperature and door, 2-day chunks for tracks); otherwise the call
fails with the configuration error before any request is issued. -/
def planHistoricalRequests (o : HistoricalDataOptions) :
    Except String (List ApiRequest) :=
  if strTruthy o.rangePattern then
    let p := o.rangePattern.getD ""
    .ok [ApiRequest.mk tempAction (some p) none none,
         ApiRequest.mk doorAction (some p) none none,
         ApiRequest.mk trackAction (some p) none none]
  else if intTruthy o.startTime ∧ intTruthy o.endTime then
    let s := o.startTime.getD 0
    let e := o.endTime.getD 0
    .ok (chunkedRequests tempAction s e SEVEN_DAYS_MS
      ++ chunkedRequests doorAction s e SEVEN_DAYS_MS
      ++ chunkedRequests trackAction s e TWO_DAYS_MS)
  else
    .error "Either rangePattern or startTime/endTime must be provided."

/-! ## Normalizer lemmas -/

/-- Every member of every group after an insertion satisfies `P` when the
previous members and the inserted reading do. -/
lemma insertByTs_forall {α : Type} {P : Reading α → Prop}
    {gs : List (Int × List (Reading α))} {t : Int} {d : Reading α}
    (hgs : ∀ p ∈ gs, ∀ x ∈ p.2, P x) (hd : P d) :
    ∀ p ∈ insertByTs gs t d, ∀ x ∈ p.2, P x := by
  induction gs with
  | nil =>
    intro p hp x hx
    simp only [insertByTs, List.mem_singleton] at hp
    subst hp
    simp only [List.mem_singleton] at hx
    subst hx
    exact hd
  | cons q rest ih =>
    intro p hp x hx
    obtain ⟨t', ds⟩ := q
    simp only [insertByTs] at hp
    by_cases he : t' = t
    · rw [if_pos he] at hp
      rcases List.mem_cons.mp hp with h1 | h1
      · subst h1
        simp only [List.mem_append, List.mem_singleton] at hx
        rcases hx with hx | hx
        · exact hgs (t', ds) (List.mem_cons_self _ _) x hx
        · subst hx; exact hd
      · exact hgs p (List.mem_cons_of_mem _ h1) x hx
    · rw [if_neg he] at hp
      rcases List.mem_cons.mp hp with h1 | h1
      · subst h1
        exact hgs (t', ds) (List.mem_cons_self _ _) x hx
      · exact ih (fun q hq => hgs q (List.mem_cons_of_mem _ hq)) p h1 x hx

/-- Every member of every group of the grouping fold satisfies `P` when the
initial groups' members do and every valid reading of the input does. -/
lemma groupFold_forall {α : Type} {P : Reading α → Prop} :
    ∀ (data : List (Reading α)) (gs : List (Int × List (Reading α))),
    (∀ p ∈ gs, ∀ x ∈ p.2, P x) →
    (∀ d ∈ data, validReading d = true → P d) →
    ∀ p ∈ data.foldl
      (fun gs d => if validReading d then insertByTs gs (tsKey d) d else gs) gs,
      ∀ x ∈ p.2, P x := by
  intro data
  induction data with
  | nil => intro gs hgs _ p hp; exact hgs p hp
  | cons a rest ih =>
    intro gs hgs hdata
    simp only [List.foldl_cons]
    by_cases hv : validReading a
    · rw [if_pos hv]
      exact ih _ (insertByTs_forall hgs (hdata a (List.mem_cons_self _ _) hv))
        (fun d hd => hdata d (List.mem_cons_of_mem _ hd))
    · rw [if_neg hv]
      exact ih _ hgs (fun d hd => hdata d (List.mem_cons_of_mem _ hd))

/-- Members of `groupByTs data`'s groups are valid readings of `data`. -/
lemma groupByTs_forall {α : Type} {P : Reading α → Prop}
    (data : List (Reading α)) (hdata : ∀ d ∈ data, validReading d = true → P d) :
    ∀ p ∈ groupByTs data, ∀ x ∈ p.2, P x :=
  groupFold_forall data [] (by simp) hdata

lemma groupByTs_mem_valid {α : Type} {data : List (Reading α)}
    {p : Int × List (Reading α)} (hp : p ∈ groupByTs data) {x : Reading α}
    (hx : x ∈ p.2) : x ∈ data ∧ validReading x = true :=
  groupByTs_forall (P := fun x => x ∈ data ∧ validReading x = true) data
    (fun d hd hv => ⟨hd, hv⟩) p hp x hx

/-- The inserted reading lands in the group of its timestamp. -/
lemma insertByTs_self {α : Type} (gs : List (Int × List (Reading α))) (t : Int)
    (d : Reading α) : ∃ g, (t, g) ∈ insertByTs gs t d ∧ d ∈ g := by
  induction gs with
  | nil => exact ⟨[d], by simp [insertByTs]⟩
  | cons q rest ih =>
    obtain ⟨t', ds⟩ := q
    by_cases he : t' = t
    · subst he
      exact ⟨ds ++ [d], by simp [insertByTs]⟩
    · obtain ⟨g, hg, hdg⟩ := ih
      exact ⟨g, by simp only [insertByTs, if_neg he]; exact List.mem_cons_of_mem _ hg, hdg⟩

/-- An existing group member survives an insertion (its group may grow). -/
lemma insertByTs_preserve {α : Type} {gs : List (Int × List (Reading α))}
    {u : Int} {g : List (Reading α)} (hg : (u, g) ∈ gs) {x : Reading α}
    (hx : x ∈ g) (t : Int) (d : Reading α) :
    ∃ g', (u, g') ∈ insertByTs gs t d ∧ x ∈ g' := by
  induction gs with
  | nil => cases hg
  | cons q rest ih =>
    obtain ⟨t', ds⟩ := q
    simp only [insertByTs]
    by_cases he : t' = t
    · rw [if_pos he]
      rcases List.mem_cons.mp hg with h1 | h1
      · injection h1 with h1a h1b
        subst h1a
        subst h1b
        exact ⟨g ++ [d], List.mem_cons_self _ _, List.mem_append_left _ hx⟩
      · exact ⟨g, List.mem_cons_of_mem _ h1, hx⟩
    · rw [if_neg he]
      rcases List.mem_cons.mp hg with h1 | h1
      · injection h1 with h1a h1b
        subst h1a
        subst h1b
        exact ⟨g, List.mem_cons_self _ _, hx⟩
      · obtain ⟨g', hg', hxg'⟩ := ih h1
        exact ⟨g', List.mem_cons_of_mem _ hg', hxg'⟩

/-- A reading already grouped keeps a group through the rest of the fold. -/
lemma groupFold_preserve {α : Type} :
    ∀ (data : List (Reading α)) (gs : List (Int × List (Reading α)))
      {u : Int} {g : List (Reading α)} {x : Reading α},
      (u, g) ∈ gs → x ∈ g →
      ∃ g', (u, g') ∈ data.foldl
        (fun gs d => if validReading d then insertByTs gs (tsKey d) d else gs) gs ∧
        x ∈ g' := by
  intro data
  induction data with
  | nil => intro gs u g x hg hx; exact ⟨g, hg, hx⟩
  | cons a rest ih =>
    intro gs u g x hg hx
    simp only [List.foldl_cons]
    by_cases hv : validReading a
    · rw [if_pos hv]
      obtain ⟨g', hg', hx'⟩ := insertByTs_preserve hg hx (tsKey a) a
      exact ih _ hg' hx'
    · rw [if_neg hv]
      exact ih _ hg hx

/-- Every valid reading of the input ends up in the group of its timestamp. -/
lemma groupFold_exists {α : Type} :
    ∀ (data : List (Reading α)) (gs : List (Int × List (Reading α)))
      {d : Reading α}, d ∈ data → validReading d = true →
      ∃ g, (tsKey d, g) ∈ data.foldl
        (fun gs d => if validReading d then insertByTs gs (tsKey d) d else gs) gs ∧
        d ∈ g := by
  intro data
  induction data with
  | nil => intro gs d hd; cases hd
  | cons a rest ih =>
    intro gs d hd hv
    simp only [List.foldl_cons]
    rcases List.mem_cons.mp hd with rfl | hd'
    · rw [if_pos hv]
      obtain ⟨g, hg, hdg⟩ := insertByTs_self gs (tsKey d) d
      exact groupFold_preserve rest _ hg hdg
    · by_cases hva : validReading a
      · rw [if_pos hva]; exact ih _ hd' hv
      · rw [if_neg hva]; exact ih _ hd' hv

lemma groupByTs_exists {α : Type} {data : List (Reading α)} {d : Reading α}
    (hd : d ∈ data) (hv : validReading d = true) :
    ∃ g, (tsKey d, g) ∈ groupByTs data ∧ d ∈ g :=
  groupFold_exists data [] hd hv

/-- The seed of the running maximum never exceeds the result. -/
lemma le_foldl_max {β : Type} (f : β → Nat) :
    ∀ (l : List β) (a : Nat), a ≤ l.foldl (fun m x => max m (f x)) a := by
  intro l
  induction l with
  | nil => intro a; exact le_refl a
  | cons x xs ih =>
    intro a
    exact le_trans (le_max_left a (f x)) (ih (max a (f x)))

/-- Every contribution is below the running maximum's result. -/
lemma mem_le_foldl_max {β : Type} (f : β → Nat) :
    ∀ (l : List β) (a : Nat) (x : β), x ∈ l →
      f x ≤ l.foldl (fun m x => max m (f x)) a := by
  intro l
  induction l with
  | nil => intro a x hx; cases hx
  | cons y ys ih =>
    intro a x hx
    rcases List.mem_cons.mp hx with rfl | hx'
    · exact le_trans (le_max_right a (f x)) (le_foldl_max f ys (max a (f x)))
    · exact ih _ x hx'

/-- The running maximum is its seed or is attained by some element. -/
lemma foldl_max_attained {β : Type} (f : β → Nat) :
    ∀ (l : List β) (a : Nat),
      l.foldl (fun m x => max m (f x)) a = a ∨
      ∃ x ∈ l, f x = l.foldl (fun m x => max m (f x)) a := by
  intro l
  induction l with
  | nil => intro a; exact Or.inl rfl
  | cons y ys ih =>
    intro a
    simp only [List.foldl_cons]
    rcases ih (max a (f y)) with h | ⟨x, hx, hfx⟩
    · rw [h]
      rcases Nat.le_total a (f y) with hle | hle
      · exact Or.inr ⟨y, List.mem_cons_self _ _, (max_eq_right hle).symm⟩
      · exact Or.inl (max_eq_left hle)
    · exact Or.inr ⟨x, List.mem_cons_of_mem _ hx, hfx⟩

/-- A running maximum of all-zero contributions from seed zero is zero. -/
lemma foldl_max_zero {β : Type} (f : β → Nat) :
    ∀ (l : List β), (∀ x ∈ l, f x = 0) →
      l.foldl (fun m x => max m (f x)) 0 = 0 := by
  intro l
  induction l with
  | nil => intro _; rfl
  | cons y ys ih =>
    intro h
    simp only [List.foldl_cons, h y (List.mem_cons_self _ _), Nat.max_self,
      Nat.zero_max, Nat.max_zero]
    exact ih (fun x hx => h x (List.mem_cons_of_mem _ hx))

lemma anonCount_le_maxAnonCount {α : Type} {data : List (Reading α)}
    {p : Int × List (Reading α)} (hp : p ∈ groupByTs data) :
    anonCount p.2 ≤ maxAnonCount data :=
  mem_le_foldl_max (fun p => anonCount p.2) (groupByTs data) 0 p hp

/-- Membership in a left fold that appends a block per element. -/
lemma mem_foldl_append {β γ : Type} (h : β → List γ) :
    ∀ (l : List β) (init : List γ) (x : γ),
      (x ∈ l.foldl (fun acc p => acc ++ h p) init ↔ x ∈ init ∨ ∃ p ∈ l, x ∈ h p) := by
  intro l
  induction l with
  | nil => intro init x; simp
  | cons y ys ih =>
    intro init x
    simp only [List.foldl_cons]
    rw [ih]
    simp only [List.mem_append, List.mem_cons]
    constructor
    · rintro (⟨hx | hx⟩ | ⟨p, hp, hx⟩)
      · exact Or.inl hx
      · exact Or.inr ⟨y, Or.inl rfl, hx⟩
      · exact Or.inr ⟨p, Or.inr hp, hx⟩
    · rintro (hx | ⟨p, rfl | hp, hx⟩)
      · exact Or.inl (Or.inl hx)
      · exact Or.inl (Or.inr hx)
      · exact Or.inr ⟨p, hp, hx⟩

lemma anonIdPool_length {α : Type} (data : List (Reading α)) :
    (anonIdPool data).length = maxAnonCount data := by
  rw [anonIdPool, List.length_map, List.length_range]

lemma anonIdPool_getElem {α : Type} (data : List (Reading α)) (j : Nat)
    (hj : j < (anonIdPool data).length) :
    (anonIdPool data)[j] = maxExplicitId data + 1 + j := by
  simp only [anonIdPool, List.getElem_map, List.getElem_range]

/-- The `j`-th anonymous reading of any timestamp group appears in the
output of `assignStableIds` with the `j`-th pool id. -/
lemma assign_anon_mem {α : Type} [DecidableEq α] {data : List (Reading α)}
    (hK : maxAnonCount data ≠ 0) {p : Int × List (Reading α)}
    (hp : p ∈ groupByTs data) (j : Nat) (hj : j < (anonOf p.2).length) :
    setSensor ((anonOf p.2).get ⟨j, hj⟩) (maxExplicitId data + 1 + j)
      ∈ assignStableIds data := by
  have hne : data ≠ [] := by
    intro h
    subst h
    simp [groupByTs] at hp
  rw [assignStableIds, if_neg hne, if_neg hK]
  rw [mem_foldl_append (fun p : Int × List (Reading α) =>
    List.zipWith setSensor (anonOf p.2) (anonIdPool data)
      ++ List.filter sensorTruthy p.2)]
  refine Or.inr ⟨p, hp, List.mem_append_left _ ?_⟩
  have hjp : j < (anonIdPool data).length := by
    rw [anonIdPool_length]
    calc j < (anonOf p.2).length := hj
    _ = anonCount p.2 := rfl
    _ ≤ maxAnonCount data := anonCount_le_maxAnonCount hp
  have hlen : j < (List.zipWith setSensor (anonOf p.2) (anonIdPool data)).length := by
    rw [List.length_zipWith]
    exact lt_min hj hjp
  have : (List.zipWith setSensor (anonOf p.2) (anonIdPool data))[j] =
      setSensor ((anonOf p.2).get ⟨j, hj⟩) (maxExplicitId data + 1 + j) := by
    rw [List.getElem_zipWith]
    rw [anonIdPool_getElem]
    rfl
  exact this ▸ List.getElem_mem hlen

/-- Every element of `assignStableIds`' rebuilt output is an explicit valid
input reading or the `j`-th anonymous reading of its group with the `j`-th
pool id. -/
lemma assign_mem_cases {α : Type} [DecidableEq α] {data : List (Reading α)}
    (hK : maxAnonCount data ≠ 0) {x : Reading α}
    (hx : x ∈ assignStableIds data) :
    (x ∈ data ∧ validReading x = true ∧ sensorTruthy x = true) ∨
    ∃ p ∈ groupByTs data, ∃ j, ∃ hj : j < (anonOf p.2).length,
      x = setSensor ((anonOf p.2).get ⟨j, hj⟩) (maxExplicitId data + 1 + j) := by
  have hne : data ≠ [] := by
    intro h
    subst h
    simp [assignStableIds] at hx
  rw [assignStableIds, if_neg hne, if_neg hK] at hx
  rw [mem_foldl_append (fun p : Int × List (Reading α) =>
    List.zipWith setSensor (anonOf p.2) (anonIdPool data)
      ++ List.filter sensorTruthy p.2)] at hx
  rcases hx with hx | ⟨p, hp, hx⟩
  · cases hx
  rcases List.mem_append.mp hx with hz | he
  · rcases List.mem_iff_getElem.mp hz with ⟨j, hlen, hget⟩
    have hj : j < (anonOf p.2).length := by
      rw [List.length_zipWith] at hlen
      exact lt_of_lt_of_le hlen (min_le_left _ _)
    refine Or.inr ⟨p, hp, j, hj, ?_⟩
    rw [← hget, List.getElem_zipWith, anonIdPool_getElem]
    rfl
  · rcases List.mem_filter.mp he with ⟨hmem, htr⟩
    obtain ⟨hd, hv⟩ := groupByTs_mem_valid hp hmem
    exact Or.inl ⟨hd, hv, htr⟩

lemma setSensor_tsValid {α : Type} (d : Reading α) (n : Int) :
    tsValid (setSensor d n) = tsValid d := rfl

lemma setSensor_value {α : Type} (d : Reading α) (n : Int) :
    (setSensor d n).value = d.value := rfl

/-- C9: the normalizer is idempotent on already-normalized input: when every
reading carries an explicit (truthy) numeric sensor id, no timestamp group
has an anonymous reading, so `assignStableIds` hits its `maxAnonCount === 0`
early return and hands back its input unchanged. -/
theorem C9_assignStableIds_idempotent {α : Type} [DecidableEq α]
    (data : List (Reading α)) (hne : data ≠ [])
    (hexp : ∀ d ∈ data, sensorTruthy d = true) :
    assignStableIds data = data := by
  have hz : maxAnonCount data = 0 := by
    apply foldl_max_zero
    intro p hp
    have hfil : anonOf p.2 = [] := by
      rw [anonOf, List.filter_eq_nil]
      intro x hx
      have hmem := (groupByTs_mem_valid hp hx).1
      rw [hexp x hmem]
      simp
    rw [anonCount, hfil]
    rfl
  rw [assignStableIds, if_neg hne, if_pos hz]

theorem C9_witness :
    assignStableIds (α := Int) [⟨some 5, some 2, none, some 0, none⟩]
      = [⟨some 5, some 2, none, some 0, none⟩] :=
  C9_assignStableIds_idempotent _ (by decide) (by decide)

/-- C10: a reading whose explicit sensor id is `0` is treated as anonymous
(the source tests `d.sensor` for truthiness, and `0` is falsy): when it is
otherwise valid it makes the anonymous maximum positive, it reappears in
the output with a fabricated pool id of at least `maxExplicitId + 1`, and
`0` is never collected among the explicit ids. -/
theorem C10_zero_sensor_anonymous {α : Type} [DecidableEq α]
    (data : List (Reading α)) (d : Reading α) (hd : d ∈ data)
    (hs : d.sensor = some 0) (hts : tsValid d = true)
    (hv : d.value.isSome = true) :
    1 ≤ maxAnonCount data ∧
    (∃ n, maxExplicitId data + 1 ≤ n ∧ setSensor d n ∈ assignStableIds data) ∧
    (0 : Int) ∉ explicitIds data := by
  have hvr : validReading d = true := by
    rw [validReading, hts, hv]
    rfl
  have hanon : sensorTruthy d = false := by
    simp [sensorTruthy, hs]
  obtain ⟨g, hg, hdg⟩ := groupByTs_exists hd hvr
  have hdanon : d ∈ anonOf g := by
    rw [anonOf]
    exact List.mem_filter.mpr ⟨hdg, by rw [hanon]; rfl⟩
  have h1 : 1 ≤ anonCount g := List.length_pos.mpr (List.ne_nil_of_mem hdanon)
  have hK : 1 ≤ maxAnonCount data :=
    le_trans h1 (anonCount_le_maxAnonCount (p := (tsKey d, g)) hg)
  refine ⟨hK, ?_, ?_⟩
  · obtain ⟨j, hj, hget⟩ := List.mem_iff_getElem.mp hdanon
    refine ⟨maxExplicitId data + 1 + j, by omega, ?_⟩
    have hm := @assign_anon_mem α _ data (by omega) (tsKey d, g) hg j hj
    rw [List.get_eq_getElem, hget] at hm
    exact hm
  · intro hmem
    rcases List.mem_filterMap.mp hmem with ⟨e, he, hsome⟩
    by_cases ht : sensorTruthy e
    · rw [if_pos ht] at hsome
      simp [sensorTruthy, hsome] at ht
    · rw [if_neg ht] at hsome
      cases hsome

/-- A valid temperature reading whose explicit sensor id is `0`. -/
def zeroSensorReading : Reading Int := ⟨some 7, some 0, none, some 1, none⟩

theorem C10_witness :
    1 ≤ maxAnonCount [zeroSensorReading] ∧
    (∃ n, maxExplicitId [zeroSensorReading] + 1 ≤ n ∧
      setSensor zeroSensorReading n ∈ assignStableIds [zeroSensorReading]) ∧
    (0 : Int) ∉ explicitIds [zeroSensorReading] :=
  C10_zero_sensor_anonymous [zeroSensorReading] zeroSensorReading
    (by decide) (by decide) (by decide) (by decide)

/-- C4: when at least one anonymous reading exists in a timestamp group, the
fabricated ids are exactly `{maxExplicitId+1, …, maxExplicitId+K}` with `K`
the worst-case per-timestamp anonymous count: within each group the `j`-th
anonymous reading (in original input order) receives `maxExplicitId+1+j`,
no group has more than `K` anonymous readings, some group attains `K` (so
every pool id is used), every output element is either a kept explicit
reading or such a pool assignment, and `maxExplicitId` defaults to `0`
without explicit ids. -/
theorem C4_fabrication_pool {α : Type} [DecidableEq α]
    (data : List (Reading α)) (hK : 0 < maxAnonCount data) :
    (∀ p ∈ groupByTs data, ∀ j (hj : j < (anonOf p.2).length),
      setSensor ((anonOf p.2).get ⟨j, hj⟩) (maxExplicitId data + 1 + j)
        ∈ assignStableIds data) ∧
    (∀ p ∈ groupByTs data, anonCount p.2 ≤ maxAnonCount data) ∧
    (∃ p ∈ groupByTs data, anonCount p.2 = maxAnonCount data) ∧
    (∀ x ∈ assignStableIds data,
      (x ∈ data ∧ sensorTruthy x = true) ∨
      ∃ p ∈ groupByTs data, ∃ j, ∃ hj : j < (anonOf p.2).length,
        x = setSensor ((anonOf p.2).get ⟨j, hj⟩) (maxExplicitId data + 1 + j)) ∧
    (explicitIds data = [] → maxExplicitId data = 0) := by
  refine ⟨?_, ?_, ?_, ?_, ?_⟩
  · intro p hp j hj
    exact assign_anon_mem (by omega) hp j hj
  · intro p hp
    exact anonCount_le_maxAnonCount hp
  · rcases foldl_max_attained (fun p => anonCount p.2) (groupByTs data) 0 with h | h
    · exfalso
      rw [maxAnonCount] at hK
      omega
    · exact h
  · intro x hx
    rcases assign_mem_cases (by omega) hx with ⟨hmem, _, htr⟩ | h
    · exact Or.inl ⟨hmem, htr⟩
    · exact Or.inr h
  · intro h
    rw [maxExplicitId, h]

/-- A two-reading input with one anonymous reading and explicit id 3: the
pool is `{4}`. -/
def c4data : List (Reading Int) :=
  [⟨some 10, none, none, some 5, none⟩, ⟨some 10, some 3, none, some 7, none⟩]

theorem C4_witness :
    (∀ p ∈ groupByTs c4data, ∀ j (hj : j < (anonOf p.2).length),
      setSensor ((anonOf p.2).get ⟨j, hj⟩) (maxExplicitId c4data + 1 + j)
        ∈ assignStableIds c4data) ∧
    (∀ p ∈ groupByTs c4data, anonCount p.2 ≤ maxAnonCount c4data) ∧
    (∃ p ∈ groupByTs c4data, anonCount p.2 = maxAnonCount c4data) ∧
    (∀ x ∈ assignStableIds c4data,
      (x ∈ c4data ∧ sensorTruthy x = true) ∨
      ∃ p ∈ groupByTs c4data, ∃ j, ∃ hj : j < (anonOf p.2).length,
        x = setSensor ((anonOf p.2).get ⟨j, hj⟩) (maxExplicitId c4data + 1 + j)) ∧
    (explicitIds c4data = [] → maxExplicitId c4data = 0) :=
  C4_fabrication_pool c4data (by decide)

/-- A reading whose hex sensor code fails to parse (`some none`) and that
carries a valid timestamp and temperature. -/
def hexFailReading : Reading Int := ⟨some 100, none, some none, some 5, none⟩

/-- C7 counterexample: the claim says a reading left without a sensor id by
a failed hex parse never appears in the normalized output, but the
normalizer keeps it: it is counted as anonymous and emitted with the
fabricated pool id `1`. -/
theorem C7_counterexample :
    assignStableIds (normalizeSensorData [hexFailReading]) ≠ [] ∧
    assignStableIds (normalizeSensorData [hexFailReading]) =
      [setSensor hexFailReading 1] := by
  decide

/-- C7 amended: when the valid readings contain at least one anonymous one
(`maxAnonCount > 0`), the output of the normalizer pipeline consists only of
readings with a parseable non-zero timestamp and the required quantity
value — readings lacking either are excluded; a reading left without a
sensor id by a failed hex parse is not excluded but re-emitted with a
fabricated id above `maxExplicitId`; and when no anonymous reading exists
(`maxAnonCount = 0`) the data is passed through unchanged, invalid readings
included. -/
theorem C7_normalizer_filtering_amended {α : Type} [DecidableEq α]
    (data : List (Reading α)) :
    (0 < maxAnonCount (normalizeSensorData data) →
      ∀ x ∈ assignStableIds (normalizeSensorData data),
        tsValid x = true ∧ x.value.isSome = true) ∧
    (0 < maxAnonCount (normalizeSensorData data) →
      ∀ x, validReading x = false → x ∉ assignStableIds (normalizeSensorData data)) ∧
    (∀ d ∈ data, d.sensorcode = some none → d.sensor = none →
      validReading d = true →
      ∃ n, maxExplicitId (normalizeSensorData data) < n ∧
        setSensor d n ∈ assignStableIds (normalizeSensorData data)) ∧
    (maxAnonCount (normalizeSensorData data) = 0 →
      assignStableIds (normalizeSensorData data) = normalizeSensorData data) := by
  have valid_out : 0 < maxAnonCount (normalizeSensorData data) →
      ∀ x ∈ assignStableIds (normalizeSensorData data), validReading x = true := by
    intro hK x hx
    rcases assign_mem_cases (by omega) hx with ⟨_, hv, _⟩ | ⟨p, hp, j, hj, rfl⟩
    · exact hv
    · have hv := (groupByTs_mem_valid hp
        (List.mem_filter.mp (List.get_mem (anonOf p.2) j hj)).1).2
      rw [validReading, setSensor_tsValid, setSensor_value]
      rw [validReading] at hv
      exact hv
  refine ⟨?_, ?_, ?_, ?_⟩
  · intro hK x hx
    have hv := valid_out hK x hx
    rw [validReading, Bool.and_eq_true] at hv
    exact hv
  · intro hK x hinv hx
    rw [valid_out hK x hx] at hinv
    cases hinv
  · intro d hd hcode hsens hv
    have hd' : d ∈ normalizeSensorData data := by
      rw [normalizeSensorData]
      refine List.mem_map.mpr ⟨d, hd, ?_⟩
      rw [hcode, hsens]
    have hanon : sensorTruthy d = false := by
      simp [sensorTruthy, hsens]
    obtain ⟨g, hg, hdg⟩ := groupByTs_exists hd' hv
    have hdanon : d ∈ anonOf g := by
      rw [anonOf]
      exact List.mem_filter.mpr ⟨hdg, by rw [hanon]; rfl⟩
    have h1 : 1 ≤ anonCount g := List.length_pos.mpr (List.ne_nil_of_mem hdanon)
    have hK : 1 ≤ maxAnonCount (normalizeSensorData data) :=
      le_trans h1 (anonCount_le_maxAnonCount (p := (tsKey d, g)) hg)
    obtain ⟨j, hj, hget⟩ := List.mem_iff_getElem.mp hdanon
    refine ⟨maxExplicitId (normalizeSensorData data) + 1 + j, by omega, ?_⟩
    have hm := @assign_anon_mem α _ (normalizeSensorData data) (by omega)
      (tsKey d, g) hg j hj
    rw [List.get_eq_getElem, hget] at hm
    exact hm
  · intro hz
    by_cases hne : normalizeSensorData data = []
    · rw [hne, assignStableIds, if_pos rfl]
    · rw [assignStableIds, if_neg hne, if_pos hz]

/-! ## Chunked fetcher and dispatch theorems -/

lemma chunkRanges_head_fst (cur endT maxD : Int) :
    ∀ x ∈ (chunkRanges cur endT maxD).head?, x.1 = cur := by
  rw [chunkRanges]
  split
  · intro x hx
    simp only [List.head?_cons, Option.mem_def, Option.some.injEq] at hx
    rw [← hx]
  · intro x hx
    cases hx

lemma chunkRanges_chain (cur endT maxD : Int) :
    List.Chain' (fun r s => r.2 = s.1) (chunkRanges cur endT maxD) := by
  induction cur, endT, maxD using chunkRanges.induct with
  | case1 cur endT maxD h ih =>
    rw [chunkRanges, dif_pos h]
    rw [List.chain'_cons']
    refine ⟨?_, ih⟩
    intro y hy
    exact (chunkRanges_head_fst _ _ _ y hy).symm
  | case2 cur endT maxD h =>
    rw [chunkRanges, dif_neg h]
    exact List.chain'_nil

lemma chunkRanges_bounds (cur endT maxD : Int) :
    ∀ r ∈ chunkRanges cur endT maxD, r.1 < r.2 ∧ r.2 - r.1 ≤ maxD ∧ r.2 ≤ endT := by
  induction cur, endT, maxD using chunkRanges.induct with
  | case1 cur endT maxD h ih =>
    rw [chunkRanges, dif_pos h]
    intro r hr
    rcases List.mem_cons.mp hr with rfl | hr'
    · refine ⟨lt_min (by omega) h.1, ?_, min_le_right _ _⟩
      have := min_le_left (cur + maxD) endT
      omega
    · exact ih r hr'
  | case2 cur endT maxD h =>
    rw [chunkRanges, dif_neg h]
    intro r hr
    cases hr

lemma chunkRanges_getLast (cur endT maxD : Int) (hlt : cur < endT) (hmax : 0 < maxD) :
    (chunkRanges cur endT maxD).getLast?.map Prod.snd = some endT := by
  induction cur, endT, maxD using chunkRanges.induct with
  | case1 cur endT maxD h ih =>
    rw [chunkRanges, dif_pos h]
    by_cases hm : min (cur + maxD) endT < endT
    · have hne : chunkRanges (min (cur + maxD) endT) endT maxD ≠ [] := by
        rw [chunkRanges, dif_pos ⟨hm, h.2⟩]
        exact List.cons_ne_nil _ _
      rcases hrest : chunkRanges (min (cur + maxD) endT) endT maxD with _ | ⟨y, ys⟩
      · exact absurd hrest hne
      · rw [List.getLast?_cons_cons]
        rw [hrest] at ih
        exact ih hm h.2
    · have hm' : min (cur + maxD) endT = endT := by
        have := min_le_right (cur + maxD) endT
        omega
      have hrest : chunkRanges (min (cur + maxD) endT) endT maxD = [] := by
        rw [chunkRanges, dif_neg]
        intro hc
        exact absurd hc.1 hm
      rw [hrest]
      simp [hm']
  | case2 cur endT maxD h =>
    exact absurd ⟨hlt, hmax⟩ h

lemma chunkRanges_nil (cur endT maxD : Int) (h : ¬cur < endT) :
    chunkRanges cur endT maxD = [] := by
  rw [chunkRanges, dif_neg]
  intro hc
  exact h hc.1

lemma foldl_append_eq_flatten {β γ : Type} (g : β → List γ) :
    ∀ (l : List β) (init : List γ),
      l.foldl (fun acc r => acc ++ g r) init = init ++ (l.map g).flatten := by
  intro l
  induction l with
  | nil => intro init; simp
  | cons y ys ih =>
    intro init
    simp only [List.foldl_cons, List.map_cons, List.flatten_cons]
    rw [ih, List.append_assoc]

/-- C5: the chunked fetcher splits `[start, end)` into consecutive,
non-overlapping chunks of at most `maxD` milliseconds: successive windows
abut exactly, every window is nonempty, bounded by `maxD` and clipped to
`end`, the first window starts at `start` and the last ends at `end`, the
per-chunk results are concatenated in order (a failed chunk contributing
nothing), and `[0, 20 days)` under the 7-day temperature bound yields
exactly the three windows `[0,7d)`, `[7d,14d)`, `[14d,20d)`. -/
theorem C5_chunked_fetcher (startT endT maxD : Int) (hmax : 0 < maxD) :
    List.Chain' (fun r s => r.2 = s.1) (chunkRanges startT endT maxD) ∧
    (∀ r ∈ chunkRanges startT endT maxD,
      r.1 < r.2 ∧ r.2 - r.1 ≤ maxD ∧ r.2 ≤ endT) ∧
    (startT < endT →
      (chunkRanges startT endT maxD).head?.map Prod.fst = some startT ∧
      (chunkRanges startT endT maxD).getLast?.map Prod.snd = some endT) ∧
    (¬startT < endT → chunkRanges startT endT maxD = []) ∧
    (∀ (γ : Type) (fetch : Int × Int → Option (List γ)),
      getChunkedHistoricalData fetch startT endT maxD =
        ((chunkRanges startT endT maxD).map fun r => (fetch r).getD []).flatten) ∧
    chunkRanges 0 1728000000 604800000 =
      [(0, 604800000), (604800000, 1209600000), (1209600000, 1728000000)] := by
  refine ⟨chunkRanges_chain _ _ _, chunkRanges_bounds _ _ _, ?_, ?_, ?_, ?_⟩
  · intro hlt
    refine ⟨?_, chunkRanges_getLast _ _ _ hlt hmax⟩
    rw [chunkRanges, dif_pos ⟨hlt, hmax⟩]
    rfl
  · exact chunkRanges_nil _ _ _
  · intro γ fetch
    rw [getChunkedHistoricalData, foldl_append_eq_flatten]
    rfl
  · simp [chunkRanges]

theorem C5_witness :
    chunkRanges 0 1728000000 604800000 =
      [(0, 604800000), (604800000, 1209600000), (1209600000, 1728000000)] :=
  (C5_chunked_fetcher 0 1728000000 604800000 (by norm_num)).2.2.2.2.2

/-- C8: with neither temporal mode supplied (no range pattern, and a missing
`startTime` or `endTime`), `getHistoricalData` fails with its configuration
error and the plan carries no request; with a (truthy) range pattern
supplied, the pattern is forwarded verbatim in exactly one request per
stream, the chunked path is skipped, and the explicit window fields are
ignored (the two modes are mutually exclusive). -/
theorem C8_dispatch_modes (o : HistoricalDataOptions) :
    (o.rangePattern = none → o.startTime = none ∨ o.endTime = none →
      planHistoricalRequests o =
        .error "Either rangePattern or startTime/endTime must be provided.") ∧
    (∀ p, o.rangePattern = some p → p ≠ "" →
      planHistoricalRequests o =
        .ok [ApiRequest.mk tempAction (some p) none none,
             ApiRequest.mk doorAction (some p) none none,
             ApiRequest.mk trackAction (some p) none none]) := by
  constructor
  · intro hrp hse
    have h1 : strTruthy o.rangePattern = false := by
      rw [hrp]
      rfl
    have h2 : ¬(intTruthy o.startTime ∧ intTruthy o.endTime) := by
      rcases hse with hs | he
      · intro hc
        rw [hs] at hc
        exact absurd hc.1 (by decide)
      · intro hc
        rw [he] at hc
        exact absurd hc.2 (by decide)
    rw [planHistoricalRequests, if_neg (by rw [h1]; exact Bool.false_ne_true),
      if_neg h2]
  · intro p hrp hne
    have h1 : strTruthy o.rangePattern = true := by
      rw [hrp]
      exact bne_iff_ne.mpr hne
    rw [planHistoricalRequests, if_pos h1, hrp]
    rfl

/-! ## Compactor theorems -/

lemma optLt_none_left (b : Option Int) : optLt none b = false := rfl

lemma optLt_some_none (x : Int) : optLt (some x) none = false := rfl

/-- C3: at any emission with a previously emitted numeric timestamp more
than 1ms back, the compactor first pushes a synthetic boundary point at
`ts - 1` carrying the pre-update carried state, then the real point; and
the two-event temperature stream at t=1000 and t=5000 yields exactly
`[t=1000, t=4999 (state of t=1000), t=5000]`. -/
theorem C3_synthetic_gap_boundary (s : CState) (ts : Int) (snap : Snapshot)
    (p : Int) (hlast : lastTs s = some (some p))
    (hemit : snap.temperatures ≠ [] ∨ some (combinedDoor s snap) ≠ s.lastDoor ∨
      snap.location.isSome = true)
    (hgap : ts > p + 1) :
    (compactStep s (some ts, snap)).results =
      s.results ++
        [(EmitFlag.mk false false,
          HPoint.mk (some (ts - 1)) s.carriedTemps s.lastDoor s.lastLocation),
         (EmitFlag.mk true (decide (snap.temperatures ≠ [])),
          HPoint.mk (some ts) (emitTemps s snap) (emitDoor s snap) (emitLoc s snap))] ∧
    getHistoricalData
      [⟨some 1000, some 1, none, some 5, none⟩, ⟨some 5000, some 1, none, some 6, none⟩]
      [] []
      = [⟨some 1000, some [(1, ⟨5, "Sensor 1"⟩)], none, none⟩,
         ⟨some 4999, some [(1, ⟨5, "Sensor 1"⟩)], none, none⟩,
         ⟨some 5000, some [(1, ⟨6, "Sensor 1"⟩)], none, none⟩] := by
  constructor
  · have hne : s.results ≠ [] := by
      intro h
      rw [lastTs, h] at hlast
      cases hlast
    simp only [compactStep, hlast]
    rw [if_pos (Or.inr hemit), if_pos hgap, List.append_assoc]
    rfl
  · decide

def c3temps : IdMap TempReading := [(1, ⟨5, "Sensor 1"⟩)]

/-- The compactor state right after emitting the t=1000 temperature event. -/
def c3state : CState :=
  ⟨[(EmitFlag.mk true true, HPoint.mk (some 1000) (some c3temps) none none)],
    none, some c3temps, none⟩

/-- The t=5000 snapshot of the gap scenario. -/
def c3snap : Snapshot := ⟨[(1, ⟨6, "Sensor 1"⟩)], [], none⟩

theorem C3_witness :
    (compactStep c3state (some 5000, c3snap)).results =
      c3state.results ++
        [(EmitFlag.mk false false,
          HPoint.mk (some 4999) c3state.carriedTemps c3state.lastDoor
            c3state.lastLocation),
         (EmitFlag.mk true (decide (c3snap.temperatures ≠ [])),
          HPoint.mk (some 5000) (emitTemps c3state c3snap) (emitDoor c3state c3snap)
            (emitLoc c3state c3snap))] ∧
    getHistoricalData
      [⟨some 1000, some 1, none, some 5, none⟩, ⟨some 5000, some 1, none, some 6, none⟩]
      [] []
      = [⟨some 1000, some [(1, ⟨5, "Sensor 1"⟩)], none, none⟩,
         ⟨some 4999, some [(1, ⟨5, "Sensor 1"⟩)], none, none⟩,
         ⟨some 5000, some [(1, ⟨6, "Sensor 1"⟩)], none, none⟩] :=
  C3_synthetic_gap_boundary c3state 5000 c3snap 1000 (by decide)
    (Or.inl (by decide)) (by decide)

/-- The door stream of spec scenario 2: Open at t=100, still Open at t=200,
Closed at t=500. -/
def doorScenario : List (Reading String) :=
  [⟨some 100, some 1, none, some "OPEN", none⟩,
   ⟨some 200, some 1, none, some "OPEN", none⟩,
   ⟨some 500, some 1, none, some "CLOSED", none⟩]

/-- C6: a snapshot whose merged door state equals the carried one and that
brings no temperature data and no location is not emitted — the compactor
state is untouched; in the scenario the real emitted events are at t=100
and t=500 only (the full output also holds the synthetic gap-boundary point
at t=499, flagged as non-real, guarding the 100→500 gap). -/
theorem C6_door_compaction (s : CState) (ts : Option Int) (snap : Snapshot)
    (hne : s.results ≠ [])
    (hnt : snap.temperatures = [])
    (hnl : snap.location = none)
    (hdoor : some (combinedDoor s snap) = s.lastDoor) :
    compactStep s (ts, snap) = s ∧
    ((getHistoricalDataA [] doorScenario []).filter (fun fp => fp.1.real)).map
      (fun fp => fp.2.timestamp) = [some 100, some 500] ∧
    (getHistoricalDataA [] doorScenario []).map (fun fp => fp.2.timestamp)
      = [some 100, some 499, some 500] := by
  refine ⟨?_, by decide, by decide⟩
  have hcond : ¬(s.results = [] ∨ snap.temperatures ≠ [] ∨
      some (combinedDoor s snap) ≠ s.lastDoor ∨ snap.location.isSome = true) := by
    push_neg
    exact ⟨hne, hnt, hdoor, by rw [hnl]; decide⟩
  simp only [compactStep]
  rw [if_neg hcond]

/-- The compactor state after the Open door event at t=100. -/
def c6state : CState :=
  ⟨[(EmitFlag.mk true false, HPoint.mk (some 100) none (some [(1, 1)]) none)],
    some [(1, 1)], none, none⟩

/-- The t=200 snapshot: the door still Open, nothing else. -/
def c6snap : Snapshot := ⟨[], [(1, 1)], none⟩

theorem C6_witness :
    compactStep c6state (some 200, c6snap) = c6state ∧
    ((getHistoricalDataA [] doorScenario []).filter (fun fp => fp.1.real)).map
      (fun fp => fp.2.timestamp) = [some 100, some 500] ∧
    (getHistoricalDataA [] doorScenario []).map (fun fp => fp.2.timestamp)
      = [some 100, some 499, some 500] :=
  C6_door_compaction c6state (some 200) c6snap (by decide) (by decide) (by decide)
    (by decide)

/-! ## Output timestamp ordering (C1) -/

lemma upsertSnap_keys (m : List (Option Int × Snapshot)) (t : Option Int)
    (f : Snapshot → Snapshot) :
    (upsertSnap m t f).map Prod.fst =
      if t ∈ m.map Prod.fst then m.map Prod.fst else m.map Prod.fst ++ [t] := by
  induction m with
  | nil => simp [upsertSnap]
  | cons q rest ih =>
    obtain ⟨t', s⟩ := q
    simp only [upsertSnap]
    by_cases he : t' = t
    · rw [if_pos he]
      subst he
      simp
    · rw [if_neg he]
      simp only [List.map_cons, List.mem_cons]
      rw [ih]
      by_cases hmem : t ∈ rest.map Prod.fst
      · rw [if_pos hmem, if_pos (Or.inr hmem)]
      · rw [if_neg hmem, if_neg]
        · simp
        · rintro (h | h)
          · exact he h.symm
          · exact hmem h

lemma upsertSnap_keys_nodup {m : List (Option Int × Snapshot)} (t : Option Int)
    (f : Snapshot → Snapshot) (h : (m.map Prod.fst).Nodup) :
    ((upsertSnap m t f).map Prod.fst).Nodup := by
  rw [upsertSnap_keys]
  by_cases hmem : t ∈ m.map Prod.fst
  · rw [if_pos hmem]
    exact h
  · rw [if_neg hmem]
    rw [← List.concat_eq_append]
    exact h.concat hmem

lemma addTemp_keys_nodup {m : List (Option Int × Snapshot)} (d : Reading Int)
    (h : (m.map Prod.fst).Nodup) : ((addTemp m d).map Prod.fst).Nodup := by
  rw [addTemp]
  split
  · split
    · exact upsertSnap_keys_nodup _ _ h
    · exact h
  · exact h

lemma addDoor_keys_nodup {m : List (Option Int × Snapshot)} (d : Reading String)
    (h : (m.map Prod.fst).Nodup) : ((addDoor m d).map Prod.fst).Nodup := by
  rw [addDoor]
  split
  · split
    · exact upsertSnap_keys_nodup _ _ h
    · exact h
  · exact h

lemma addTrack_keys_nodup {m : List (Option Int × Snapshot)} (d : TrackReading)
    (h : (m.map Prod.fst).Nodup) : ((addTrack m d).map Prod.fst).Nodup := by
  rw [addTrack]
  split
  · split
    · exact upsertSnap_keys_nodup _ _ h
    · exact h
  · exact h

lemma foldl_keys_nodup {β : Type}
    {f : List (Option Int × Snapshot) → β → List (Option Int × Snapshot)}
    (hf : ∀ m d, (m.map Prod.fst).Nodup → ((f m d).map Prod.fst).Nodup) :
    ∀ (l : List β) (m : List (Option Int × Snapshot)),
      (m.map Prod.fst).Nodup → ((l.foldl f m).map Prod.fst).Nodup := by
  intro l
  induction l with
  | nil => intro m hm; exact hm
  | cons y ys ih =>
    intro m hm
    exact ih _ (hf m y hm)

lemma upsertSnap_keys_isSome {m : List (Option Int × Snapshot)} {t : Option Int}
    (f : Snapshot → Snapshot) (hm : ∀ k ∈ m.map Prod.fst, k.isSome = true)
    (ht : t.isSome = true) :
    ∀ k ∈ (upsertSnap m t f).map Prod.fst, k.isSome = true := by
  rw [upsertSnap_keys]
  by_cases hmem : t ∈ m.map Prod.fst
  · rw [if_pos hmem]
    exact hm
  · rw [if_neg hmem]
    intro k hk
    rcases List.mem_append.mp hk with hk | hk
    · exact hm k hk
    · rw [List.mem_singleton] at hk
      subst hk
      exact ht

lemma addTemp_keys_isSome {m : List (Option Int × Snapshot)} {d : Reading Int}
    (hd : d.ts.isSome = true) (hm : ∀ k ∈ m.map Prod.fst, k.isSome = true) :
    ∀ k ∈ (addTemp m d).map Prod.fst, k.isSome = true := by
  rw [addTemp]
  split
  · split
    · exact upsertSnap_keys_isSome _ hm hd
    · exact hm
  · exact hm

lemma addDoor_keys_isSome {m : List (Option Int × Snapshot)} {d : Reading String}
    (hd : d.ts.isSome = true) (hm : ∀ k ∈ m.map Prod.fst, k.isSome = true) :
    ∀ k ∈ (addDoor m d).map Prod.fst, k.isSome = true := by
  rw [addDoor]
  split
  · split
    · exact upsertSnap_keys_isSome _ hm hd
    · exact hm
  · exact hm

lemma addTrack_keys_isSome {m : List (Option Int × Snapshot)} (d : TrackReading)
    (hm : ∀ k ∈ m.map Prod.fst, k.isSome = true) :
    ∀ k ∈ (addTrack m d).map Prod.fst, k.isSome = true := by
  rw [addTrack]
  split
  · split
    · exact upsertSnap_keys_isSome _ hm rfl
    · exact hm
  · exact hm

lemma foldl_keys_isSome {β : Type}
    {f : List (Option Int × Snapshot) → β → List (Option Int × Snapshot)}
    {P : β → Prop}
    (hstep : ∀ m d, P d → (∀ k ∈ m.map Prod.fst, k.isSome = true) →
      ∀ k ∈ (f m d).map Prod.fst, k.isSome = true) :
    ∀ (l : List β) (m : List (Option Int × Snapshot)),
      (∀ d ∈ l, P d) →
      (∀ k ∈ m.map Prod.fst, k.isSome = true) →
      ∀ k ∈ (l.foldl f m).map Prod.fst, k.isSome = true := by
  intro l
  induction l with
  | nil => intro m _ hm; exact hm
  | cons y ys ih =>
    intro m hl hm
    exact ih _ (fun d hd => hl d (List.mem_cons_of_mem _ hd))
      (hstep m y (hl y (List.mem_cons_self _ _)) hm)

/-- `normalizeSensorData` only rewrites the sensor field: every output
record shares its timestamp with an input record. -/
lemma normalizeSensorData_ts {α : Type} {data : List (Reading α)} {x : Reading α}
    (hx : x ∈ normalizeSensorData data) : ∃ d ∈ data, x.ts = d.ts := by
  rw [normalizeSensorData] at hx
  rcases List.mem_map.mp hx with ⟨d, hd, heq⟩
  refine ⟨d, hd, ?_⟩
  rw [← heq]
  split
  · rfl
  · rfl

/-- `assignStableIds` only rewrites sensor fields: every output record
shares its timestamp with an input record. -/
lemma assignStableIds_ts {α : Type} [DecidableEq α] {data : List (Reading α)}
    {x : Reading α} (hx : x ∈ assignStableIds data) : ∃ d ∈ data, x.ts = d.ts := by
  by_cases hne : data = []
  · subst hne
    simp [assignStableIds] at hx
  by_cases hK : maxAnonCount data = 0
  · rw [assignStableIds, if_neg hne, if_pos hK] at hx
    exact ⟨x, hx, rfl⟩
  · rcases assign_mem_cases hK hx with ⟨hmem, _, _⟩ | ⟨p, hp, j, hj, rfl⟩
    · exact ⟨x, hmem, rfl⟩
    · have hmem := (groupByTs_mem_valid hp
        (List.mem_filter.mp (List.get_mem (anonOf p.2) j hj)).1).1
      exact ⟨(anonOf p.2).get ⟨j, hj⟩, hmem, rfl⟩

lemma nanKeyLe_total (a b : Option Int) : nanKeyLe a b = true ∨ nanKeyLe b a = true := by
  cases a with
  | none => exact Or.inl rfl
  | some x =>
    cases b with
    | none => exact Or.inr rfl
    | some y =>
      rcases Int.le_total x y with h | h
      · exact Or.inl (by simp [nanKeyLe, h])
      · exact Or.inr (by simp [nanKeyLe, h])

lemma nanKeyLe_trans {a b c : Option Int} (hab : nanKeyLe a b = true)
    (hbc : nanKeyLe b c = true) : nanKeyLe a c = true := by
  cases a with
  | none => rfl
  | some x =>
    cases b with
    | none => simp [nanKeyLe] at hab
    | some y =>
      cases c with
      | none => simp [nanKeyLe] at hbc
      | some z =>
        simp only [nanKeyLe, decide_eq_true_eq] at hab hbc ⊢
        omega

instance : IsTotal (Option Int × Snapshot) (fun a b => nanKeyLe a.1 b.1 = true) :=
  ⟨fun a b => nanKeyLe_total a.1 b.1⟩

instance : IsTrans (Option Int × Snapshot) (fun a b => nanKeyLe a.1 b.1 = true) :=
  ⟨fun _ _ _ hab hbc => nanKeyLe_trans hab hbc⟩

/-- On `NaN`-free, duplicate-free key sets the sorted snapshots have
strictly increasing keys in the JavaScript order. -/
lemma sortSnaps_pairwise {m : List (Option Int × Snapshot)}
    (h : (m.map Prod.fst).Nodup)
    (hsome : ∀ k ∈ m.map Prod.fst, k.isSome = true) :
    List.Pairwise (fun a b : Option Int × Snapshot => optLt a.1 b.1 = true)
      (sortSnaps m) := by
  have hsorted : List.Sorted
      (fun a b : Option Int × Snapshot => nanKeyLe a.1 b.1 = true) (sortSnaps m) :=
    List.sorted_insertionSort _ m
  have hperm : (sortSnaps m).Perm m := List.perm_insertionSort _ m
  have hnodup : ((sortSnaps m).map Prod.fst).Nodup :=
    ((hperm.map Prod.fst).nodup_iff).mpr h
  have hne : List.Pairwise (fun a b : Option Int × Snapshot => a.1 ≠ b.1)
      (sortSnaps m) := List.pairwise_map.mp hnodup
  refine (hsorted.and hne).imp_of_mem ?_
  intro a b ha hb hr
  have hsa : a.1.isSome = true :=
    hsome a.1 (List.mem_map_of_mem Prod.fst (hperm.mem_iff.mp ha))
  have hsb : b.1.isSome = true :=
    hsome b.1 (List.mem_map_of_mem Prod.fst (hperm.mem_iff.mp hb))
  obtain ⟨x, hx⟩ := Option.isSome_iff_exists.mp hsa
  obtain ⟨y, hy⟩ := Option.isSome_iff_exists.mp hsb
  obtain ⟨hle, hneq⟩ := hr
  rw [hx, hy] at hle hneq ⊢
  simp only [nanKeyLe, decide_eq_true_eq] at hle
  simp only [optLt, decide_eq_true_eq]
  have hxy : x ≠ y := fun hc => hneq (by rw [hc])
  omega

/-- The timestamps of a (flagged) result list. -/
def resultTs (l : List (EmitFlag × HPoint)) : List (Option Int) :=
  l.map fun fp => fp.2.timestamp

lemma lastTs_eq_getLast (s : CState) :
    (resultTs s.results).getLast? = lastTs s := by
  rw [resultTs, lastTs, List.getLast?_map]

lemma lastTs_none_iff (s : CState) : lastTs s = none ↔ s.results = [] := by
  rw [lastTs]
  cases hr : s.results with
  | nil => simp
  | cons y ys =>
    constructor
    · intro h
      rcases List.getLast?_eq_none_iff.mp (Option.map_eq_none'.mp h) with h'
      cases h'
    · intro h
      cases h

/-- One compactor step keeps the emitted timestamps a strictly increasing
chain in the JavaScript order, provided every pending snapshot timestamp
lies strictly above the last emitted one. -/
lemma compactStep_chain (s : CState) (t : Option Int) (snap : Snapshot)
    (hchain : List.Chain' (fun a b => optLt a b = true) (resultTs s.results))
    (hgt : ∀ p, lastTs s = some p → optLt p t = true) :
    List.Chain' (fun a b => optLt a b = true)
      (resultTs (compactStep s (t, snap)).results) ∧
    (lastTs (compactStep s (t, snap)) = lastTs s ∨
      lastTs (compactStep s (t, snap)) = some t) := by
  by_cases hc : s.results = [] ∨ snap.temperatures ≠ [] ∨
      some (combinedDoor s snap) ≠ s.lastDoor ∨ snap.location.isSome = true
  · have hlastStep : lastTs (compactStep s (t, snap)) = some t := by
      simp only [compactStep]
      rw [if_pos hc]
      simp [lastTs, List.getLast?_concat]
    refine ⟨?_, Or.inr hlastStep⟩
    cases hl : lastTs s with
    | none =>
      have hres : s.results = [] := (lastTs_none_iff s).mp hl
      have hstep : (compactStep s (t, snap)).results =
          [(EmitFlag.mk true (decide (snap.temperatures ≠ [])),
            HPoint.mk t (emitTemps s snap) (emitDoor s snap) (emitLoc s snap))] := by
        simp only [compactStep, hl]
        rw [if_pos hc, hres]
        rfl
      rw [resultTs, hstep]
      simp
    | some p =>
      have hp : optLt p t = true := hgt p hl
      cases p with
      | none =>
        rw [optLt_none_left] at hp
        cases hp
      | some q =>
        cases t with
        | none =>
          rw [optLt_some_none] at hp
          cases hp
        | some tv =>
          have hqt : q < tv := by
            simpa only [optLt, decide_eq_true_eq] using hp
          by_cases hgap : tv > q + 1
          · have hstep : (compactStep s (some tv, snap)).results =
                s.results ++
                  ([(EmitFlag.mk false false,
                    HPoint.mk (some (tv - 1)) s.carriedTemps s.lastDoor s.lastLocation)] ++
                   [(EmitFlag.mk true (decide (snap.temperatures ≠ [])),
                    HPoint.mk (some tv) (emitTemps s snap) (emitDoor s snap)
                      (emitLoc s snap))]) := by
              simp only [compactStep, hl]
              rw [if_pos hc, if_pos hgap, List.append_assoc]
            rw [resultTs, hstep, List.map_append, List.chain'_append]
            refine ⟨hchain, ?_, ?_⟩
            · simp only [List.map_append, List.map_cons, List.map_nil,
                List.singleton_append]
              refine List.chain'_pair.mpr ?_
              simp only [optLt, decide_eq_true_eq]
              omega
            · intro x hx y hy
              rw [List.getLast?_map] at hx
              rw [lastTs] at hl
              rw [hl] at hx
              simp only [Option.mem_def, Option.some.injEq] at hx
              subst hx
              simp only [List.map_append, List.map_cons, List.map_nil,
                List.singleton_append, List.head?_cons, Option.mem_def,
                Option.some.injEq] at hy
              subst hy
              simp only [optLt, decide_eq_true_eq]
              omega
          · have hstep : (compactStep s (some tv, snap)).results =
                s.results ++
                  [(EmitFlag.mk true (decide (snap.temperatures ≠ [])),
                    HPoint.mk (some tv) (emitTemps s snap) (emitDoor s snap)
                      (emitLoc s snap))] := by
              simp only [compactStep, hl]
              rw [if_pos hc, if_neg hgap]
            rw [resultTs, hstep, List.map_append, List.chain'_append]
            refine ⟨hchain, by simp, ?_⟩
            intro x hx y hy
            rw [List.getLast?_map] at hx
            rw [lastTs] at hl
            rw [hl] at hx
            simp only [Option.mem_def, Option.some.injEq] at hx
            subst hx
            simp only [List.map_cons, List.map_nil, List.head?_cons,
              Option.mem_def, Option.some.injEq] at hy
            subst hy
            exact hp
  · rw [compactStep]
    simp only
    rw [if_neg hc]
    exact ⟨hchain, Or.inl rfl⟩

lemma compact_fold_chain :
    ∀ (snaps : List (Option Int × Snapshot)) (s : CState),
      List.Pairwise (fun a b : Option Int × Snapshot => optLt a.1 b.1 = true) snaps →
      List.Chain' (fun a b => optLt a b = true) (resultTs s.results) →
      (∀ p, lastTs s = some p → ∀ x ∈ snaps, optLt p x.1 = true) →
      List.Chain' (fun a b => optLt a b = true)
        (resultTs (snaps.foldl compactStep s).results) := by
  intro snaps
  induction snaps with
  | nil => intro s _ hchain _; exact hchain
  | cons x rest ih =>
    intro s hpw hchain hlast
    obtain ⟨t, snap⟩ := x
    simp only [List.foldl_cons]
    obtain ⟨hchain', hlast'⟩ := compactStep_chain s t snap hchain
      (fun p hp => hlast p hp (t, snap) (List.mem_cons_self _ _))
    apply ih _ (List.pairwise_cons.mp hpw).2 hchain'
    intro p hp x hx
    rcases hlast' with heq | heq
    · rw [hp] at heq
      exact hlast p heq.symm x (List.mem_cons_of_mem _ hx)
    · rw [hp] at heq
      injection heq with heq'
      subst heq'
      exact (List.pairwise_cons.mp hpw).1 x hx

/-- C1 (amended): for every input whose temperature and door records carry
parseable timestamps, the array returned by `getHistoricalData` has
strictly increasing timestamps (in the JavaScript number order `optLt`),
synthetic gap-boundary points included.  `C1_counterexample` shows the
unrestricted claim false: a sensor-bearing record with an unparseable
timestamp survives the `maxAnonCount === 0` early return of
`assignStableIds`, is merged under the `NaN` key, and is emitted, after
which no output timestamp comparison against it holds. -/
theorem C1_output_timestamps_strictly_increase
    (tempRaw : List (Reading Int)) (doorRaw : List (Reading String))
    (trackRaw : List TrackReading)
    (htemp : ∀ d ∈ tempRaw, d.ts.isSome = true)
    (hdoor : ∀ d ∈ doorRaw, d.ts.isSome = true) :
    List.Chain' (fun a b => optLt a b = true)
      ((getHistoricalData tempRaw doorRaw trackRaw).map HPoint.timestamp) := by
  have hmap : (getHistoricalData tempRaw doorRaw trackRaw).map HPoint.timestamp =
      resultTs (getHistoricalDataA tempRaw doorRaw trackRaw) := by
    rw [getHistoricalData, resultTs, List.map_map]
    rfl
  rw [hmap]
  simp only [getHistoricalDataA, compactA]
  have htempData : ∀ d ∈ assignStableIds (normalizeSensorData tempRaw),
      d.ts.isSome = true := by
    intro d hd
    obtain ⟨e, he, heq⟩ := assignStableIds_ts hd
    obtain ⟨r, hr, heq2⟩ := normalizeSensorData_ts he
    rw [heq, heq2]
    exact htemp r hr
  have hdoorData : ∀ d ∈ assignStableIds (normalizeSensorData doorRaw),
      d.ts.isSome = true := by
    intro d hd
    obtain ⟨e, he, heq⟩ := assignStableIds_ts hd
    obtain ⟨r, hr, heq2⟩ := normalizeSensorData_ts he
    rw [heq, heq2]
    exact hdoor r hr
  apply compact_fold_chain
  · apply sortSnaps_pairwise
    · apply foldl_keys_nodup (fun m d => addTrack_keys_nodup d)
      apply foldl_keys_nodup (fun m d => addDoor_keys_nodup d)
      apply foldl_keys_nodup (fun m d => addTemp_keys_nodup d)
      simp
    · apply foldl_keys_isSome (P := fun _ : TrackReading => True)
        (fun m d _ hm => addTrack_keys_isSome d hm) trackRaw _ (fun _ _ => trivial)
      apply foldl_keys_isSome (P := fun d : Reading String => d.ts.isSome = true)
        (fun m d hd hm => addDoor_keys_isSome hd hm) _ _ hdoorData
      apply foldl_keys_isSome (P := fun d : Reading Int => d.ts.isSome = true)
        (fun m d hd hm => addTemp_keys_isSome hd hm) _ _ htempData
      simp
  · exact List.chain'_nil
  · intro p hp
    cases hp

/-- A temperature reading with an unparseable timestamp and a truthy
explicit sensor id: `assignStableIds` returns it untouched through the
`maxAnonCount === 0` early return, and the merger keys it under `NaN`. -/
def badTsReading : Reading Int := ⟨none, some 1, none, some 5, none⟩

def goodTsReading : Reading Int := ⟨some 1000, some 2, none, some 6, none⟩

/-- C1 counterexample: on this two-record temperature stream the output
holds a `NaN`-timestamped point followed by the t=1000 point, and no
JavaScript comparison places `NaN` strictly below 1000, so the output
timestamps are not strictly increasing — under every placement of the
`NaN` key, and here the model's `NaN`-first order coincides with a stable
sort of the insertion order as well. -/
theorem C1_counterexample :
    (getHistoricalData [badTsReading, goodTsReading] [] []).map HPoint.timestamp
      = [none, some 1000] ∧
    ¬ List.Chain' (fun a b => optLt a b = true)
      ((getHistoricalData [badTsReading, goodTsReading] [] []).map HPoint.timestamp) := by
  have hout : (getHistoricalData [badTsReading, goodTsReading] [] []).map
      HPoint.timestamp = [none, some 1000] := by decide
  refine ⟨hout, ?_⟩
  rw [hout]
  intro h
  exact absurd (List.chain'_cons.mp h).1 (by decide)

theorem C1_witness :
    List.Chain' (fun a b => optLt a b = true)
      ((getHistoricalData
        [⟨some 1000, some 1, none, some 5, none⟩, ⟨some 5000, some 1, none, some 6, none⟩]
        [] []).map HPoint.timestamp) :=
  C1_output_timestamps_strictly_increase _ _ _ (by decide) (by decide)

/-! ## Temperature carry-forward (C2) -/

/-- The `temperatures` field of the most recent emitted point whose snapshot
carried temperature data, `none` when no such point was emitted yet. -/
def lastHadTempTemps (l : List (EmitFlag × HPoint)) : Option (IdMap TempReading) :=
  match (l.filter fun fp => fp.1.hadTemp).getLast? with
  | some fp => fp.2.temperatures
  | none => none

/-- Carry-forward correctness of a result prefix: every point that did not
bring new temperature data repeats the temperatures of the nearest
preceding temperature-bearing point (or `none`). -/
def CarryOk (l : List (EmitFlag × HPoint)) : Prop :=
  ∀ i (h : i < l.length), (l.get ⟨i, h⟩).1.hadTemp = false →
    (l.get ⟨i, h⟩).2.temperatures = lastHadTempTemps (l.take i)

lemma lastHadTempTemps_append (l : List (EmitFlag × HPoint)) (x : EmitFlag × HPoint) :
    lastHadTempTemps (l ++ [x]) =
      if x.1.hadTemp then x.2.temperatures else lastHadTempTemps l := by
  rw [lastHadTempTemps, List.filter_append]
  by_cases hx : x.1.hadTemp
  · rw [if_pos hx]
    have hfx : List.filter (fun fp => fp.1.hadTemp) [x] = [x] := by
      simp [hx]
    rw [hfx, List.getLast?_concat]
  · rw [if_neg hx]
    have hfx : List.filter (fun fp => fp.1.hadTemp) [x] = [] := by
      simp [hx]
    rw [hfx, List.append_nil]
    rfl

lemma carryOk_append {l : List (EmitFlag × HPoint)} {x : EmitFlag × HPoint}
    (hP : CarryOk l)
    (hx : x.1.hadTemp = false → x.2.temperatures = lastHadTempTemps l) :
    CarryOk (l ++ [x]) := by
  intro i h hflag
  have hlen : i < l.length + 1 := by
    rw [List.length_append, List.length_singleton] at h
    exact h
  by_cases hi : i < l.length
  · have hget : (l ++ [x]).get ⟨i, h⟩ = l.get ⟨i, hi⟩ := by
      simp only [List.get_eq_getElem]
      exact List.getElem_append_left hi
    rw [hget] at hflag ⊢
    rw [List.take_append_of_le_length (le_of_lt hi)]
    exact hP i hi hflag
  · have hieq : i = l.length := by omega
    have hget : (l ++ [x]).get ⟨i, h⟩ = x := by
      simp only [List.get_eq_getElem]
      exact List.getElem_concat_length l x i hieq h
    rw [hget] at hflag ⊢
    rw [hieq, List.take_append_of_le_length (le_refl _), List.take_length]
    exact hx hflag

lemma compactStep_carry (s : CState) (t : Option Int) (snap : Snapshot)
    (hcarry : s.carriedTemps = lastHadTempTemps s.results)
    (hok : CarryOk s.results) :
    (compactStep s (t, snap)).carriedTemps =
      lastHadTempTemps (compactStep s (t, snap)).results ∧
    CarryOk (compactStep s (t, snap)).results := by
  by_cases hc : s.results = [] ∨ snap.temperatures ≠ [] ∨
      some (combinedDoor s snap) ≠ s.lastDoor ∨ snap.location.isSome = true
  · have hcar : (compactStep s (t, snap)).carriedTemps = emitTemps s snap := by
      simp only [compactStep]
      rw [if_pos hc]
    obtain ⟨W, hWeq, hWok, hWlast⟩ :
        ∃ W, (compactStep s (t, snap)).results =
          W ++ [(EmitFlag.mk true (decide (snap.temperatures ≠ [])),
            HPoint.mk t (emitTemps s snap) (emitDoor s snap) (emitLoc s snap))] ∧
          CarryOk W ∧ lastHadTempTemps W = s.carriedTemps := by
      cases hl : lastTs s with
      | none =>
        refine ⟨s.results, ?_, hok, hcarry.symm⟩
        simp only [compactStep, hl]
        rw [if_pos hc]
      | some p =>
        cases p with
        | none =>
          refine ⟨s.results, ?_, hok, hcarry.symm⟩
          simp only [compactStep, hl]
          rw [if_pos hc]
        | some q =>
          cases t with
          | none =>
            refine ⟨s.results, ?_, hok, hcarry.symm⟩
            simp only [compactStep, hl]
            rw [if_pos hc]
          | some tv =>
            by_cases hgap : tv > q + 1
            · refine ⟨s.results ++ [(EmitFlag.mk false false,
                HPoint.mk (some (tv - 1)) s.carriedTemps s.lastDoor s.lastLocation)],
                ?_, ?_, ?_⟩
              · simp only [compactStep, hl]
                rw [if_pos hc, if_pos hgap, List.append_assoc]
              · exact carryOk_append hok (fun _ => hcarry)
              · rw [lastHadTempTemps_append]
                simp only [Bool.false_eq_true, if_false]
                exact hcarry.symm
            · refine ⟨s.results, ?_, hok, hcarry.symm⟩
              simp only [compactStep, hl]
              rw [if_pos hc, if_neg hgap]
    rw [hWeq, hcar]
    by_cases hT : snap.temperatures = []
    · have hflag : decide (snap.temperatures ≠ []) = false := by
        simp [hT]
      have hemit : emitTemps s snap = s.carriedTemps := by
        rw [emitTemps, if_neg]
        intro hcontra
        exact hcontra hT
      constructor
      · rw [lastHadTempTemps_append]
        simp only [hflag, Bool.false_eq_true, if_false]
        rw [hWlast, hemit]
      · apply carryOk_append hWok
        intro _
        simp only
        rw [hemit, hWlast]
    · have hflag : decide (snap.temperatures ≠ []) = true := by
        simp [hT]
      constructor
      · rw [lastHadTempTemps_append]
        simp only [hflag, if_true]
      · apply carryOk_append hWok
        intro hcontra
        simp only at hcontra
        rw [hflag] at hcontra
        cases hcontra
  · have hs : compactStep s (t, snap) = s := by
      rw [compactStep]
      simp only
      rw [if_neg hc]
    rw [hs]
    exact ⟨hcarry, hok⟩

lemma compact_fold_carry :
    ∀ (snaps : List (Option Int × Snapshot)) (s : CState),
      s.carriedTemps = lastHadTempTemps s.results →
      CarryOk s.results →
      (snaps.foldl compactStep s).carriedTemps =
        lastHadTempTemps (snaps.foldl compactStep s).results ∧
      CarryOk (snaps.foldl compactStep s).results := by
  intro snaps
  induction snaps with
  | nil => intro s hcarry hok; exact ⟨hcarry, hok⟩
  | cons x rest ih =>
    intro s hcarry hok
    obtain ⟨t, snap⟩ := x
    simp only [List.foldl_cons]
    obtain ⟨hcarry', hok'⟩ := compactStep_carry s t snap hcarry hok
    exact ih _ hcarry' hok'

/-- C2: in the instrumented run (`hadTemp` marks real emissions whose
snapshot carried temperature data; `getHistoricalData` is its projection),
every output point that brought no new temperature data — synthetic
boundary points included — carries exactly the `temperatures` of the
nearest preceding temperature-bearing emitted point, or `none` when no
temperature data was ever emitted before it. -/
theorem C2_temperature_carry_forward
    (tempRaw : List (Reading Int)) (doorRaw : List (Reading String))
    (trackRaw : List TrackReading)
    (htemp : ∀ d ∈ tempRaw, d.ts.isSome = true)
    (hdoor : ∀ d ∈ doorRaw, d.ts.isSome = true)
    (i : Nat) (hi : i < (getHistoricalDataA tempRaw doorRaw trackRaw).length)
    (hflag : ((getHistoricalDataA tempRaw doorRaw trackRaw).get ⟨i, hi⟩).1.hadTemp
      = false) :
    ((getHistoricalDataA tempRaw doorRaw trackRaw).get ⟨i, hi⟩).2.temperatures =
      lastHadTempTemps ((getHistoricalDataA tempRaw doorRaw trackRaw).take i) := by
  revert hi hflag
  simp only [getHistoricalDataA, compactA]
  intro hi hflag
  exact (compact_fold_carry _ initCState rfl (fun j hj _ => by cases hj)).2 i hi hflag

/-- A temperature event at t=100 followed by a door event at t=101: the
door point brings no temperature data. -/
def c2temp : List (Reading Int) := [⟨some 100, some 1, none, some 5, none⟩]

def c2door : List (Reading String) := [⟨some 101, some 1, none, some "OPEN", none⟩]

theorem C2_witness :
    ((getHistoricalDataA c2temp c2door []).get ⟨1, by decide⟩).2.temperatures =
      lastHadTempTemps ((getHistoricalDataA c2temp c2door []).take 1) :=
  C2_temperature_carry_forward c2temp c2door [] (by decide) (by decide) 1
    (by decide) (by decide)
